import Mathlib

/-!
Shallow embedding of the fiber sequencing engine (`sequencing_logic.py`).

Dates are modelled as `Int` days since an arbitrary epoch (pandas timestamps
are order-isomorphic to that, and the engine only adds day counts and
compares).  Monetary figures, rates and distances are modelled as `ℚ`
(the engine performs exact-looking arithmetic on them; no claim under
verification is about float rounding).  Fallible steps (pandas raising on an
empty frame) are modelled with `Option`.
-/

namespace FiberSeq

/-- One input row of the working set: `Segment_Name`, `Start_Date`,
`Duration`, `EstRate`, `Miles`, `Segment_Cost`.  (`Cost_Per_Mile` is carried
in the data files but never read by the sequencing engine, so it is not
modelled.) -/
structure Segment where
  name : String
  plannedStart : Int
  duration : Int
  rate : ℚ
  distance : ℚ
  totalCost : ℚ
  deriving DecidableEq, Repr

/-- Model of `FiberSequencer.apply_parameters`, the functional core: starting from the
pristine original rows, offset every `Start_Date`, then (when the multiplier
differs from `1.0`) scale `EstRate` and recompute
`Duration = ceil(Miles / EstRate)`, then (when a threshold is given) keep the
rows with `Segment_Cost <= cost_threshold`. -/
def applyParameters (original : List Segment) (offset : Int) (mult : ℚ)
    (threshold : Option ℚ) : List Segment :=
  let d1 := if offset ≠ 0 then
      original.map (fun s => { s with plannedStart := s.plannedStart + offset })
    else original
  let d2 := if mult ≠ 1 then
      d1.map (fun s =>
        { s with rate := s.rate * mult,
                 duration := ⌈s.distance / (s.rate * mult)⌉ })
    else d1
  match threshold with
  | some c => d2.filter (fun s => decide (s.totalCost ≤ c))
  | none => d2

/-- The sequencer object: `original_data` (immutable input) and `data`
(the mutable working copy). -/
structure FiberSequencer where
  original_data : List Segment
  data : List Segment
  deriving DecidableEq, Repr

/-- Model of `FiberSequencer.__init__`: both fields start as copies of the input. -/
def FiberSequencer.init (d : List Segment) : FiberSequencer := ⟨d, d⟩

/-- Model of `FiberSequencer.apply_parameters` as a state transition: the working copy
is rebuilt from `original_data` on every call (line 30 of the source:
`self.data = self.original_data.copy()`). -/
def FiberSequencer.apply_parameters (st : FiberSequencer) (offset : Int)
    (mult : ℚ) (threshold : Option ℚ) : FiberSequencer :=
  { st with data := applyParameters st.original_data offset mult threshold }

/-- A row of the packed schedule: the segment plus `Actual_Start` and
`Actual_End`. -/
structure Sched where
  seg : Segment
  actualStart : Int
  actualEnd : Int
  deriving DecidableEq, Repr

/-- The packing loop of `_calculate_schedule`: walk the ordered rows carrying
`current_date`; each row gets `actual_start = max(Start_Date, current_date)`
and `end_date = actual_start + Duration`, and the cursor advances to
`end_date`. -/
def packFrom (cursor : Int) : List Segment → List Sched
  | [] => []
  | s :: rest =>
    let a := max s.plannedStart cursor
    ⟨s, a, a + s.duration⟩ :: packFrom (a + s.duration) rest

/-- Model of `result['Start_Date'].min()`: the minimum planned start of the rows.  On
an empty frame pandas returns `NaT`; that value is never consumed (the packing
loop runs zero times), so the placeholder `0` is returned for `[]`. -/
def minPlannedStart : List Segment → Int
  | [] => 0
  | s :: rest => (rest.map Segment.plannedStart).foldl min s.plannedStart

/-- The date-stamping part of `_calculate_schedule` (lines 76-96): initialize
the cursor to the minimum `Start_Date`, then pack each row in order. -/
def calculateScheduleRows (l : List Segment) : List Sched :=
  packFrom (minPlannedStart l) l

/-- Running prefix sums starting from `acc` (the body of pandas `cumsum`). -/
def cumFrom (acc : ℚ) : List ℚ → List ℚ
  | [] => []
  | x :: r => (acc + x) :: cumFrom (acc + x) r

/-- Model of pandas `Series.cumsum`. -/
def cumSums (xs : List ℚ) : List ℚ := cumFrom 0 xs

/-- The `Miles` column of a packed schedule. -/
def milesList (l : List Sched) : List ℚ := l.map fun r => r.seg.distance

/-- The `Segment_Cost` column of a packed schedule. -/
def costList (l : List Sched) : List ℚ := l.map fun r => r.seg.totalCost

/-- Model of `result['Miles'].sum()`. -/
def totalMiles (l : List Sched) : ℚ := (milesList l).sum

/-- Model of `result['Miles'].cumsum()` — the `Cumulative_Miles` column. -/
def cumMiles (l : List Sched) : List ℚ := cumSums (milesList l)

/-- Model of `result['Segment_Cost'].cumsum()` — the `Cumulative_Cost` column. -/
def cumCost (l : List Sched) : List ℚ := cumSums (costList l)

/-- Index of the first `true` in a boolean series, `none` when every entry is
`false` (helper for `idxmax`). -/
def firstTrueIdx : List Bool → Option Nat
  | [] => none
  | b :: r => if b then some 0 else (firstTrueIdx r).map (· + 1)

/-- Model of pandas `Series.idxmax` on a boolean series over the positional index
`0..n-1` (the frame was `reset_index(drop=True)`): the label of the first
`True`, and the first label `0` when every entry is `False` (all entries then
hold the maximum `False`).  On an empty series `idxmax` raises; the caller
(`calculateCumulativeMetrics`) models that by returning `none` before ever
calling this, so the `[]` value here is an unused placeholder. -/
def idxmax (bs : List Bool) : Nat := (firstTrueIdx bs).getD 0

/-- A milestone record: the `{pct}%_Day` and `{pct}%_Cost` pair, `none`/`none`
when the source stores `None` in both columns. -/
structure MilestoneRec where
  day : Option Int
  cost : Option ℚ
  deriving DecidableEq, Repr

/-- Model of `(result['Cumulative_Miles'] >= milestone_miles).idxmax()` with
`milestone_miles = total_miles * τ`. -/
def milestoneIdx (l : List Sched) (τ : ℚ) : Nat :=
  idxmax ((cumMiles l).map (fun c => decide (τ * totalMiles l ≤ c)))

/-- Model of lines 129-137 of the source: look up the milestone row when
`milestone_idx < len(result)`, otherwise store `None`/`None`. -/
def milestoneFor (l : List Sched) (τ : ℚ) : MilestoneRec :=
  let i := milestoneIdx l τ
  if h : i < l.length then
    ⟨some (l[i].actualEnd), some ((cumCost l).getD i 0)⟩
  else ⟨none, none⟩

/-- Model of `result.sort_values('Actual_Start')` inside the aggregator.  pandas
`sort_values` defaults to `kind='quicksort'`, which is not a stable sort; the
embedding fixes one concrete realization of "sorted by the key" (a merge
sort).  No theorem below depends on which permutation of equal keys the
library sort returns: every schedule/cumulative property is proved for an
arbitrary order of the rows. -/
def sortByActualStart (l : List Sched) : List Sched :=
  l.mergeSort (fun a b => decide (a.actualStart ≤ b.actualStart))

/-- The aggregated output of `_calculate_cumulative_metrics`: the re-sorted
rows, the two cumulative columns, and the three milestone column pairs. -/
structure AggResult where
  rows : List Sched
  cumulativeMiles : List ℚ
  cumulativeCost : List ℚ
  m50 : MilestoneRec
  m75 : MilestoneRec
  m100 : MilestoneRec
  deriving DecidableEq, Repr

/-- Model of `_calculate_cumulative_metrics` (lines 103-139): re-sort by
`Actual_Start`, take cumulative sums, and record the three milestones.  On a
frame with zero rows the milestone lookup
`(result['Cumulative_Miles'] >= milestone_miles).idxmax()` raises
`ValueError` (argmax of an empty sequence), modelled as `none`. -/
def calculateCumulativeMetrics (l : List Sched) : Option AggResult :=
  let r := sortByActualStart l
  match r with
  | [] => none
  | _ :: _ =>
    some ⟨r, cumMiles r, cumCost r,
          milestoneFor r (1/2), milestoneFor r (3/4), milestoneFor r 1⟩

/-- Model of `_calculate_schedule` end to end: date-stamp the ordered rows, then
aggregate. -/
def calculateSchedule (l : List Segment) : Option AggResult :=
  calculateCumulativeMetrics (calculateScheduleRows l)

/-- Model of `self.data.sort_values('Start_Date')` — same remark as
`sortByActualStart` on the (un)stability of the library sort. -/
def sortByStartDate (l : List Segment) : List Segment :=
  l.mergeSort (fun a b => decide (a.plannedStart ≤ b.plannedStart))

/-- Model of `self.data.sort_values('Segment_Cost')` — same remark as
`sortByActualStart` on the (un)stability of the library sort. -/
def sortBySegmentCost (l : List Segment) : List Segment :=
  l.mergeSort (fun a b => decide (a.totalCost ≤ b.totalCost))

/-- Model of `FiberSequencer.sequence_by_start_date`. -/
def FiberSequencer.sequence_by_start_date (st : FiberSequencer) :
    Option AggResult :=
  calculateSchedule (sortByStartDate st.data)

/-- Model of `FiberSequencer.sequence_by_lowest_cost`. -/
def FiberSequencer.sequence_by_lowest_cost (st : FiberSequencer) :
    Option AggResult :=
  calculateSchedule (sortBySegmentCost st.data)

/-- The early-efficiency metric of `get_pros_cons_analysis` (lines 208-212):
`head(len//4)`, then summed `Miles` divided by summed `Segment_Cost`.  The
source performs the division on numpy floats; when the divisor is `0.0` (in
particular when `len//4 == 0`, so both sums are sums over no rows) the float
quotient is not a finite number (`0.0/0.0` is NaN, emitted without raising),
modelled as `none`. -/
def earlyEfficiency (rows : List Sched) : Option ℚ :=
  let early := rows.take (rows.length / 4)
  let m := (early.map fun r => r.seg.distance).sum
  let c := (early.map fun r => r.seg.totalCost).sum
  if c = 0 then none else some (m / c)

/-- Concrete segment used by witnesses (spec §8 example, segment A). -/
def segA : Segment := ⟨"A", 0, 10, 1, 10, 100000⟩

/-- Concrete segment used by witnesses (spec §8 example, segment B). -/
def segB : Segment := ⟨"B", 0, 5, 1, 5, 50000⟩

/-- Concrete segment used by witnesses (spec §8 example, segment C). -/
def segC : Segment := ⟨"C", 20, 5, 1, 5, 30000⟩

/-- Concrete segment used by witnesses (fourth segment, so that a schedule
with at least four rows exists). -/
def segD : Segment := ⟨"D", 30, 5, 1, 8, 40000⟩

theorem packFrom_length (c : Int) (l : List Segment) :
    (packFrom c l).length = l.length := by
  induction l generalizing c with
  | nil => rfl
  | cons s rest ih => simp [packFrom, ih]

theorem packFrom_props (c : Int) (l : List Segment) :
    ∀ (i : Nat) (h : i < l.length) (h2 : i < (packFrom c l).length),
      (packFrom c l)[i].seg = l[i] ∧
      l[i].plannedStart ≤ (packFrom c l)[i].actualStart ∧
      (packFrom c l)[i].actualEnd
        = (packFrom c l)[i].actualStart + l[i].duration := by
  induction l generalizing c with
  | nil => intro i h h2; simp at h
  | cons s rest ih =>
    intro i h h2
    cases i with
    | zero => exact ⟨rfl, le_max_left _ _, rfl⟩
    | succ n =>
      have hn : n < rest.length := by simpa using h
      have hn2 : n < (packFrom (max s.plannedStart c + s.duration) rest).length := by
        rw [packFrom_length]; exact hn
      simpa [packFrom] using ih _ n hn hn2

theorem packFrom_adj (c : Int) (l : List Segment) :
    ∀ (i : Nat) (h : i + 1 < l.length) (h2 : i + 1 < (packFrom c l).length)
      (h3 : i < (packFrom c l).length),
      (packFrom c l)[i + 1].actualStart
        = max l[i + 1].plannedStart ((packFrom c l)[i].actualEnd) := by
  induction l generalizing c with
  | nil => intro i h _ _; simp at h
  | cons s rest ih =>
    intro i h h2 h3
    cases rest with
    | nil => simp at h
    | cons t rest2 =>
      cases i with
      | zero => rfl
      | succ n =>
        have hn : n + 1 < (t :: rest2).length := by simpa using h
        have hn2 : n + 1 <
            (packFrom (max s.plannedStart c + s.duration) (t :: rest2)).length := by
          rw [packFrom_length]; exact hn
        have hn3 : n <
            (packFrom (max s.plannedStart c + s.duration) (t :: rest2)).length := by
          omega
        simpa [packFrom] using ih _ n hn hn2 hn3

theorem packFrom_head_start (c : Int) (s : Segment) (rest : List Segment)
    (h2 : 0 < (packFrom c (s :: rest)).length) :
    (packFrom c (s :: rest))[0].actualStart = max s.plannedStart c := rfl

theorem foldl_min_le_init (a : Int) (xs : List Int) : xs.foldl min a ≤ a := by
  induction xs generalizing a with
  | nil => exact le_refl a
  | cons x r ih => exact le_trans (ih (min a x)) (min_le_left a x)

theorem foldl_min_le_mem (a : Int) (xs : List Int) :
    ∀ x ∈ xs, xs.foldl min a ≤ x := by
  induction xs generalizing a with
  | nil => intro x hx; simp at hx
  | cons y r ih =>
    intro x hx
    rcases List.mem_cons.mp hx with h | h
    · subst h
      exact le_trans (foldl_min_le_init (min a x) r) (min_le_right a x)
    · exact ih (min a y) x h

theorem foldl_min_mem (a : Int) (xs : List Int) :
    xs.foldl min a = a ∨ xs.foldl min a ∈ xs := by
  induction xs generalizing a with
  | nil => exact Or.inl rfl
  | cons y r ih =>
    rcases ih (min a y) with h | h
    · rcases min_choice a y with h2 | h2
      · exact Or.inl (by rw [List.foldl_cons, h, h2])
      · exact Or.inr (by rw [List.foldl_cons, h, h2]; exact List.mem_cons_self _ _)
    · exact Or.inr (List.mem_cons_of_mem _ (by rw [List.foldl_cons]; exact h))

theorem minPlannedStart_le (l : List Segment) :
    ∀ s ∈ l, minPlannedStart l ≤ s.plannedStart := by
  cases l with
  | nil => intro s hs; simp at hs
  | cons s rest =>
    intro t ht
    rcases List.mem_cons.mp ht with h | h
    · subst h; exact foldl_min_le_init _ _
    · exact foldl_min_le_mem _ _ _ (List.mem_map_of_mem Segment.plannedStart h)

theorem minPlannedStart_mem (l : List Segment) (h : l ≠ []) :
    minPlannedStart l ∈ l.map Segment.plannedStart := by
  cases l with
  | nil => exact absurd rfl h
  | cons s rest =>
    rcases foldl_min_mem s.plannedStart (rest.map Segment.plannedStart) with h2 | h2
    · rw [List.map_cons]
      exact (show minPlannedStart (s :: rest) = s.plannedStart from h2) ▸
        List.mem_cons_self _ _
    · rw [List.map_cons]
      exact List.mem_cons_of_mem _ h2

/-- C1: for every non-empty working set (the property is proved for an
arbitrary order of the rows, hence for either ordering rule) the packer
initializes its cursor to the minimum `plannedStart` over the rows (a genuine
minimum: a lower bound that is attained), assigns the first row
`actualStart = max(plannedStart, cursor)`, assigns every later row
`actualStart = max(plannedStart, previous actualEnd)` (the cursor having
advanced to the previous `actualEnd`), and always sets
`actualEnd = actualStart + duration` days. -/
theorem c1_packer_cursor_recurrence (l : List Segment) :
    (∀ s ∈ l, minPlannedStart l ≤ s.plannedStart) ∧
    (l ≠ [] → minPlannedStart l ∈ l.map Segment.plannedStart) ∧
    (calculateScheduleRows l).length = l.length ∧
    (∀ (h : 0 < l.length) (h2 : 0 < (calculateScheduleRows l).length),
      (calculateScheduleRows l)[0].actualStart
        = max l[0].plannedStart (minPlannedStart l)) ∧
    (∀ (i : Nat) (h : i < l.length) (h2 : i < (calculateScheduleRows l).length),
      (calculateScheduleRows l)[i].seg = l[i] ∧
      (calculateScheduleRows l)[i].actualEnd
        = (calculateScheduleRows l)[i].actualStart + l[i].duration) ∧
    (∀ (i : Nat) (h : i + 1 < l.length)
      (h2 : i + 1 < (calculateScheduleRows l).length)
      (h3 : i < (calculateScheduleRows l).length),
      (calculateScheduleRows l)[i + 1].actualStart
        = max l[i + 1].plannedStart ((calculateScheduleRows l)[i].actualEnd)) := by
  refine ⟨minPlannedStart_le l, minPlannedStart_mem l, packFrom_length _ l,
    ?_, ?_, ?_⟩
  · intro h h2
    cases l with
    | nil => simp at h
    | cons s rest => exact packFrom_head_start _ s rest h2
  · intro i h h2
    exact ⟨(packFrom_props _ l i h h2).1, (packFrom_props _ l i h h2).2.2⟩
  · intro i h h2 h3
    exact packFrom_adj _ l i h h2 h3

/-- C1 witness: on the spec's three-segment example the recurrence holds with
every hypothesis discharged concretely. -/
theorem c1_packer_cursor_recurrence_witness :
    ((calculateScheduleRows [segA, segB, segC]).get ⟨0, by decide⟩).actualStart
      = max (([segA, segB, segC].get ⟨0, by decide⟩).plannedStart)
          (minPlannedStart [segA, segB, segC]) ∧
    ((calculateScheduleRows [segA, segB, segC]).get ⟨1, by decide⟩).actualStart
      = max (([segA, segB, segC].get ⟨1, by decide⟩).plannedStart)
          (((calculateScheduleRows [segA, segB, segC]).get ⟨0, by decide⟩).actualEnd) ∧
    ((calculateScheduleRows [segA, segB, segC]).get ⟨1, by decide⟩).actualEnd
      = ((calculateScheduleRows [segA, segB, segC]).get ⟨1, by decide⟩).actualStart
          + ([segA, segB, segC].get ⟨1, by decide⟩).duration := by
  refine ⟨?_, ?_, ?_⟩
  · exact (c1_packer_cursor_recurrence [segA, segB, segC]).2.2.2.1
      (by decide) (by decide)
  · exact (c1_packer_cursor_recurrence [segA, segB, segC]).2.2.2.2.2 0
      (by decide) (by decide) (by decide)
  · exact ((c1_packer_cursor_recurrence [segA, segB, segC]).2.2.2.2.1 1
      (by decide) (by decide)).2

/-- C3: in packed order every segment starts no earlier than its own planned
start (start-floor invariant), and adjacent packed segments never overlap:
`actualEnd i ≤ actualStart (i+1)` (no-overlap invariant).  Proved for an
arbitrary order of the working set, hence for either ordering rule. -/
theorem c3_schedule_invariants (l : List Segment) :
    (∀ (i : Nat) (h : i < l.length) (h2 : i < (calculateScheduleRows l).length),
      (calculateScheduleRows l)[i].seg.plannedStart
        ≤ (calculateScheduleRows l)[i].actualStart) ∧
    (∀ (i : Nat) (h : i + 1 < l.length)
      (h2 : i + 1 < (calculateScheduleRows l).length)
      (h3 : i < (calculateScheduleRows l).length),
      (calculateScheduleRows l)[i].actualEnd
        ≤ (calculateScheduleRows l)[i + 1].actualStart) := by
  constructor
  · intro i h h2
    have hp := packFrom_props (minPlannedStart l) l i h h2
    simp only [calculateScheduleRows]
    rw [hp.1]
    exact hp.2.1
  · intro i h h2 h3
    simp only [calculateScheduleRows]
    rw [packFrom_adj (minPlannedStart l) l i h h2 h3]
    exact le_max_right _ _

/-- C3 witness: both invariants checked on the spec's three-segment example
at concrete indices. -/
theorem c3_schedule_invariants_witness :
    ((calculateScheduleRows [segA, segB, segC]).get ⟨2, by decide⟩).seg.plannedStart
      ≤ ((calculateScheduleRows [segA, segB, segC]).get ⟨2, by decide⟩).actualStart ∧
    ((calculateScheduleRows [segA, segB, segC]).get ⟨1, by decide⟩).actualEnd
      ≤ ((calculateScheduleRows [segA, segB, segC]).get ⟨2, by decide⟩).actualStart := by
  constructor
  · exact (c3_schedule_invariants [segA, segB, segC]).1 2 (by decide) (by decide)
  · exact (c3_schedule_invariants [segA, segB, segC]).2 1 (by decide) (by decide)
      (by decide)

theorem cumFrom_length (a : ℚ) (xs : List ℚ) :
    (cumFrom a xs).length = xs.length := by
  induction xs generalizing a with
  | nil => rfl
  | cons x r ih => simp [cumFrom, ih]

theorem cumMiles_length (l : List Sched) : (cumMiles l).length = l.length := by
  simp [cumMiles, cumSums, cumFrom_length, milesList]

theorem cumCost_length (l : List Sched) : (cumCost l).length = l.length := by
  simp [cumCost, cumSums, cumFrom_length, costList]

theorem cumFrom_chain (a : ℚ) (xs : List ℚ) (h : ∀ x ∈ xs, 0 ≤ x) :
    List.Chain' (· ≤ ·) (cumFrom a xs) := by
  induction xs generalizing a with
  | nil => simp [cumFrom]
  | cons x r ih =>
    rw [cumFrom, List.chain'_cons']
    refine ⟨?_, ih (a + x) fun z hz => h z (List.mem_cons_of_mem _ hz)⟩
    intro b hb
    cases r with
    | nil => simp [cumFrom] at hb
    | cons y r2 =>
      rw [cumFrom] at hb
      simp only [List.head?_cons, Option.mem_def, Option.some.injEq] at hb
      have hy : (0 : ℚ) ≤ y := h y (by simp)
      rw [← hb]
      linarith

theorem cumFrom_getD (a : ℚ) (xs : List ℚ) :
    ∀ (i : Nat), i < xs.length →
      (cumFrom a xs).getD i 0 = a + (xs.take (i + 1)).sum := by
  induction xs generalizing a with
  | nil => intro i h; simp at h
  | cons x r ih =>
    intro i h
    cases i with
    | zero => simp [cumFrom]
    | succ n =>
      rw [cumFrom, List.getD_cons_succ, ih (a + x) n (by simpa using h)]
      simp [add_assoc]

/-- C9: in schedule order, the cumulative distance and cost columns are
non-decreasing (given the data-model constraint that distances and costs are
non-negative), and their final entries equal the totals over all rows.
Proved for an arbitrary order of the rows. -/
theorem c9_cumulative_monotone (l : List Sched) (hne : l ≠ [])
    (hm : ∀ r ∈ l, 0 ≤ r.seg.distance) (hc : ∀ r ∈ l, 0 ≤ r.seg.totalCost) :
    List.Chain' (· ≤ ·) (cumMiles l) ∧
    List.Chain' (· ≤ ·) (cumCost l) ∧
    (cumMiles l).getD (l.length - 1) 0 = totalMiles l ∧
    (cumCost l).getD (l.length - 1) 0 = (costList l).sum := by
  have hm' : ∀ x ∈ milesList l, (0 : ℚ) ≤ x := by
    intro x hx
    obtain ⟨r, hr, rfl⟩ := List.mem_map.mp hx
    exact hm r hr
  have hc' : ∀ x ∈ costList l, (0 : ℚ) ≤ x := by
    intro x hx
    obtain ⟨r, hr, rfl⟩ := List.mem_map.mp hx
    exact hc r hr
  have hlen : 0 < l.length := List.length_pos.mpr hne
  have hms : (milesList l).length = l.length := by simp [milesList]
  have hcs : (costList l).length = l.length := by simp [costList]
  refine ⟨cumFrom_chain 0 _ hm', cumFrom_chain 0 _ hc', ?_, ?_⟩
  · rw [cumMiles, cumSums, cumFrom_getD 0 _ (l.length - 1) (by omega)]
    have : l.length - 1 + 1 = (milesList l).length := by omega
    rw [this, List.take_length, totalMiles, zero_add]
  · rw [cumCost, cumSums, cumFrom_getD 0 _ (l.length - 1) (by omega)]
    have : l.length - 1 + 1 = (costList l).length := by omega
    rw [this, List.take_length, zero_add]

/-- C9 witness: cumulative monotonicity and the final-total equalities on the
schedule packed from the spec's three-segment example. -/
theorem c9_cumulative_monotone_witness :
    List.Chain' (· ≤ ·) (cumMiles (calculateScheduleRows [segA, segB, segC])) ∧
    List.Chain' (· ≤ ·) (cumCost (calculateScheduleRows [segA, segB, segC])) ∧
    (cumMiles (calculateScheduleRows [segA, segB, segC])).getD
        ((calculateScheduleRows [segA, segB, segC]).length - 1) 0
      = totalMiles (calculateScheduleRows [segA, segB, segC]) ∧
    (cumCost (calculateScheduleRows [segA, segB, segC])).getD
        ((calculateScheduleRows [segA, segB, segC]).length - 1) 0
      = (costList (calculateScheduleRows [segA, segB, segC])).sum :=
  c9_cumulative_monotone (calculateScheduleRows [segA, segB, segC])
    (by decide) (by decide) (by decide)

theorem firstTrueIdx_isSome_of (bs : List Bool) (j : Nat) (hj : j < bs.length)
    (h : bs.getD j false = true) : (firstTrueIdx bs).isSome = true := by
  induction bs generalizing j with
  | nil => simp at hj
  | cons b r ih =>
    rw [firstTrueIdx]
    by_cases hb : b = true
    · simp [hb]
    · cases j with
      | zero => exact absurd (by simpa using h) hb
      | succ n =>
        have := ih n (by simpa using hj) (by simpa using h)
        simpa [hb] using this

theorem firstTrueIdx_spec (bs : List Bool) (i : Nat)
    (h : firstTrueIdx bs = some i) :
    i < bs.length ∧ bs.getD i false = true ∧
      ∀ j, j < i → bs.getD j false = false := by
  induction bs generalizing i with
  | nil => simp [firstTrueIdx] at h
  | cons b r ih =>
    rw [firstTrueIdx] at h
    by_cases hb : b = true
    · rw [if_pos hb] at h
      obtain rfl : i = 0 := by simpa using h.symm
      exact ⟨by simp, by simpa using hb, fun j hj => absurd hj (by omega)⟩
    · rw [if_neg hb] at h
      obtain ⟨n, hn, rfl⟩ := Option.map_eq_some'.mp h
      obtain ⟨h1, h2, h3⟩ := ih n hn
      refine ⟨by simpa using h1, by simpa using h2, ?_⟩
      intro j hj
      cases j with
      | zero => simpa using hb
      | succ k => simpa using h3 k (by omega)

theorem getD_map_decide (t : ℚ) (xs : List ℚ) (j : Nat) (hj : j < xs.length) :
    ((xs.map fun c => decide (t ≤ c)).getD j false) = decide (t ≤ xs.getD j 0) := by
  rw [List.getD_eq_getElem _ false (by simpa using hj), List.getElem_map,
    List.getD_eq_getElem xs 0 hj]

/-- C5: for every non-empty row set (arbitrary order, in particular the
aggregator's cumulative order) and each threshold τ ∈ {1/2, 3/4, 1}, the
recorded milestone is exactly the `Actual_End` and cumulative cost of the
first row whose cumulative distance reaches τ times the total distance; such
a row always exists, so the absent (`None`/`None`) case never fires within
this scope — which also makes the claim's "if no such segment exists the
milestone is absent" clause hold vacuously. -/
theorem c5_milestone_first_crossing (l : List Sched) (τ : ℚ) (hne : l ≠ [])
    (hm : ∀ r ∈ l, 0 ≤ r.seg.distance)
    (hτ : τ = 1/2 ∨ τ = 3/4 ∨ τ = 1) :
    ∃ i, ∃ hi : i < l.length,
      (∀ j, j < i → (cumMiles l).getD j 0 < τ * totalMiles l) ∧
      τ * totalMiles l ≤ (cumMiles l).getD i 0 ∧
      milestoneFor l τ = ⟨some ((l.get ⟨i, hi⟩).actualEnd),
                          some ((cumCost l).getD i 0)⟩ := by
  have hτ1 : τ ≤ 1 := by rcases hτ with rfl | rfl | rfl <;> norm_num
  have hT : (0 : ℚ) ≤ totalMiles l := by
    refine List.sum_nonneg ?_
    intro x hx
    obtain ⟨r, hr, rfl⟩ := List.mem_map.mp hx
    exact hm r hr
  have hlen : 0 < l.length := List.length_pos.mpr hne
  have hcl : (cumMiles l).length = l.length := cumMiles_length l
  have hbsl : ((cumMiles l).map (fun c => decide (τ * totalMiles l ≤ c))).length
      = l.length := by rw [List.length_map, hcl]
  have hlast : (cumMiles l).getD (l.length - 1) 0 = totalMiles l := by
    rw [cumMiles, cumSums, cumFrom_getD 0 _ (l.length - 1)
      (by simp [milesList]; omega)]
    have hml : l.length - 1 + 1 = (milesList l).length := by simp [milesList]; omega
    rw [hml, List.take_length, totalMiles, zero_add]
  have hcross : ((cumMiles l).map
      (fun c => decide (τ * totalMiles l ≤ c))).getD (l.length - 1) false
        = true := by
    rw [getD_map_decide _ _ _ (by omega), hlast]
    exact decide_eq_true (mul_le_of_le_one_left hT hτ1)
  have hsome := firstTrueIdx_isSome_of _ (l.length - 1) (by omega) hcross
  obtain ⟨i, hi⟩ := Option.isSome_iff_exists.mp hsome
  obtain ⟨h1, h2, h3⟩ := firstTrueIdx_spec _ i hi
  rw [hbsl] at h1
  have hidx : milestoneIdx l τ = i := by
    rw [milestoneIdx, idxmax, hi]
    rfl
  refine ⟨i, h1, ?_, ?_, ?_⟩
  · intro j hj
    have hf := h3 j hj
    rw [getD_map_decide _ _ _ (by omega)] at hf
    exact lt_of_not_le (of_decide_eq_false hf)
  · rw [getD_map_decide _ _ _ (by omega)] at h2
    exact of_decide_eq_true h2
  · rw [milestoneFor]
    simp only [hidx]
    rw [dif_pos h1]
    rfl

/-- C5 witness: on the schedule packed from the spec's three-segment example
the 50% milestone is the first crossing row, with every hypothesis discharged
concretely. -/
theorem c5_milestone_first_crossing_witness :
    (calculateScheduleRows [segA, segB, segC] ≠ []) ∧
    (∃ i, ∃ hi : i < (calculateScheduleRows [segA, segB, segC]).length,
      (∀ j, j < i →
        (cumMiles (calculateScheduleRows [segA, segB, segC])).getD j 0
          < (1/2 : ℚ) * totalMiles (calculateScheduleRows [segA, segB, segC])) ∧
      (1/2 : ℚ) * totalMiles (calculateScheduleRows [segA, segB, segC])
        ≤ (cumMiles (calculateScheduleRows [segA, segB, segC])).getD i 0 ∧
      milestoneFor (calculateScheduleRows [segA, segB, segC]) (1/2)
        = ⟨some (((calculateScheduleRows [segA, segB, segC]).get ⟨i, hi⟩).actualEnd),
           some ((cumCost (calculateScheduleRows [segA, segB, segC])).getD i 0)⟩) :=
  ⟨by decide, c5_milestone_first_crossing _ (1/2) (by decide) (by decide)
    (Or.inl rfl)⟩

/-- C4: invoking either sequencing operation on an empty working set fails
(the milestone lookup `idxmax` raises on the empty frame, modelled as `none`)
instead of returning a report, and a successful run never carries an empty
row set — i.e. the packer never silently produces an empty schedule/report. -/
theorem c4_empty_schedule_error :
    (∀ st : FiberSequencer, st.data = [] →
      st.sequence_by_start_date = none ∧ st.sequence_by_lowest_cost = none) ∧
    (∀ (l : List Segment) (agg : AggResult),
      calculateSchedule l = some agg → agg.rows ≠ []) := by
  constructor
  · intro st hst
    rw [FiberSequencer.sequence_by_start_date, FiberSequencer.sequence_by_lowest_cost,
      hst]
    constructor <;>
      simp [sortByStartDate, sortBySegmentCost, calculateSchedule,
        calculateScheduleRows, packFrom, sortByActualStart,
        calculateCumulativeMetrics, minPlannedStart]
  · intro l agg h
    rw [calculateSchedule, calculateCumulativeMetrics] at h
    cases hr : sortByActualStart (calculateScheduleRows l) with
    | nil => rw [hr] at h; exact absurd h (by simp)
    | cons a r =>
      rw [hr] at h
      have h2 := Option.some.inj h
      intro hrows
      rw [← h2] at hrows
      simp at hrows

/-- C4 witness: the empty working set makes both sequencing calls fail, and a
concrete one-segment run returns rows that are not empty. -/
theorem c4_empty_schedule_error_witness :
    (FiberSequencer.init []).sequence_by_start_date = none ∧
    (FiberSequencer.init []).sequence_by_lowest_cost = none ∧
    ∀ agg : AggResult, calculateSchedule [segA] = some agg → agg.rows ≠ [] :=
  ⟨(c4_empty_schedule_error.1 (FiberSequencer.init []) rfl).1,
   (c4_empty_schedule_error.1 (FiberSequencer.init []) rfl).2,
   fun agg h => c4_empty_schedule_error.2 [segA] agg h⟩

/-- C10: `apply_parameters` with the default knobs is the identity on the
working set (it becomes the pristine original again), and more generally any
`apply_parameters` call rebuilds the working copy from `original_data`, so
two successive calls do not compose: the second completely overrides the
first. -/
theorem c10_apply_parameters_rebuilds (st : FiberSequencer) (d : List Segment)
    (o1 o2 : Int) (m1 m2 : ℚ) (c1 c2 : Option ℚ) :
    ((FiberSequencer.init d).apply_parameters 0 1 none).data = d ∧
    (st.apply_parameters 0 1 none).data = st.original_data ∧
    (st.apply_parameters o1 m1 c1).original_data = st.original_data ∧
    (st.apply_parameters o1 m1 c1).apply_parameters o2 m2 c2
      = st.apply_parameters o2 m2 c2 := by
  refine ⟨?_, ?_, rfl, rfl⟩
  · show applyParameters d 0 1 none = d
    rw [applyParameters]
    simp
  · show applyParameters st.original_data 0 1 none = st.original_data
    rw [applyParameters]
    simp

/-- C6: `apply_parameters` adds the offset to every planned start and keeps
name, distance and totalCost unchanged; when the multiplier differs from 1 it
scales every rate and recomputes `duration = ceil(distance / newRate)` —
which is automatically at least 1 for in-domain data (positive distance,
positive new rate); when the multiplier equals 1 the rate and duration are
untouched; and a supplied cost ceiling drops, after the other adjustments,
exactly the rows whose totalCost exceeds it. -/
theorem c6_apply_parameters (l : List Segment) (o : Int) (m : ℚ) (c : ℚ) :
    (applyParameters l o m none).length = l.length ∧
    (∀ (i : Nat) (h : i < l.length)
      (h2 : i < (applyParameters l o m none).length),
      (applyParameters l o m none)[i].name = l[i].name ∧
      (applyParameters l o m none)[i].distance = l[i].distance ∧
      (applyParameters l o m none)[i].totalCost = l[i].totalCost ∧
      (applyParameters l o m none)[i].plannedStart = l[i].plannedStart + o ∧
      (m ≠ 1 →
        (applyParameters l o m none)[i].rate = l[i].rate * m ∧
        (applyParameters l o m none)[i].duration
          = ⌈l[i].distance / (l[i].rate * m)⌉ ∧
        (0 < l[i].distance → 0 < l[i].rate * m →
          1 ≤ (applyParameters l o m none)[i].duration)) ∧
      (m = 1 →
        (applyParameters l o m none)[i].rate = l[i].rate ∧
        (applyParameters l o m none)[i].duration = l[i].duration)) ∧
    applyParameters l o m (some c)
      = (applyParameters l o m none).filter (fun s => decide (s.totalCost ≤ c)) := by
  refine ⟨?_, ?_, ?_⟩
  · by_cases hm : m = 1 <;> by_cases ho : o = 0 <;>
      simp [applyParameters, hm, ho]
  · intro i h h2
    by_cases hm : m = 1 <;> by_cases ho : o = 0 <;>
      simp [applyParameters, hm, ho] <;>
      exact fun hd hr => div_pos hd hr
  · simp only [applyParameters]

/-- C6 witness: on a one-segment working set with offset 3, multiplier 2 and
ceiling 60000, every adjustment equation holds with the hypotheses discharged
concretely. -/
theorem c6_apply_parameters_witness :
    ((applyParameters [segA] 3 2 none).get ⟨0, by decide⟩).plannedStart
      = ([segA].get ⟨0, by decide⟩).plannedStart + 3 ∧
    ((applyParameters [segA] 3 2 none).get ⟨0, by decide⟩).rate
      = ([segA].get ⟨0, by decide⟩).rate * 2 ∧
    ((applyParameters [segA] 3 2 none).get ⟨0, by decide⟩).duration
      = ⌈([segA].get ⟨0, by decide⟩).distance
          / (([segA].get ⟨0, by decide⟩).rate * 2)⌉ ∧
    1 ≤ ((applyParameters [segA] 3 2 none).get ⟨0, by decide⟩).duration ∧
    ((applyParameters [segA] 3 2 none).get ⟨0, by decide⟩).totalCost
      = ([segA].get ⟨0, by decide⟩).totalCost ∧
    applyParameters [segA] 3 2 (some 60000)
      = (applyParameters [segA] 3 2 none).filter
          (fun s => decide (s.totalCost ≤ 60000)) := by
  obtain ⟨hlen, helt, hfil⟩ := c6_apply_parameters [segA] 3 2 60000
  obtain ⟨hname, hdist, hcost, hps, hmul, hid⟩ := helt 0 (by decide) (by decide)
  obtain ⟨hrate, hdur, hmin⟩ := hmul (by norm_num)
  exact ⟨hps, hrate, hdur,
    hmin (by norm_num [segA]) (by norm_num [segA]), hcost, hfil⟩

/-- C7 (code evaluated at the failing input): `apply_parameters` has no guard
on the multiplier.  With `production_multiplier = -1` on a well-formed
segment the call silently succeeds and writes a negative rate and a negative
duration into the working set (full, corrupt adjustment applied; no
`InvalidParameter` failure). -/
theorem c7_no_invalid_parameter_guard :
    ((FiberSequencer.init [segA]).apply_parameters 0 (-1) none).data
      = [{ segA with rate := -1, duration := -10 }] ∧
    ({ segA with rate := -1, duration := -10 } : Segment).duration < 1 := by
  constructor
  · show applyParameters [segA] 0 (-1) none = _
    norm_num [applyParameters, segA, Int.ceil_neg]
  · norm_num [segA]

/-- C8: the early-efficiency metric equals summed distance over summed cost
of the first ⌊count/4⌋ rows in schedule order whenever that divisor is
non-zero (in particular for at least 4 rows of positive cost), and for fewer
than 4 rows the head is empty, the source's float division is `0.0/0.0`
(NaN, emitted without raising), i.e. the metric is the undefined value. -/
theorem c8_early_efficiency (rows : List Sched) :
    (rows.length < 4 → earlyEfficiency rows = none) ∧
    ((∀ r ∈ rows, 0 < r.seg.totalCost) → 4 ≤ rows.length →
      earlyEfficiency rows
        = some ((((rows.take (rows.length / 4)).map fun r => r.seg.distance).sum)
            / (((rows.take (rows.length / 4)).map fun r => r.seg.totalCost).sum))) := by
  constructor
  · intro h
    have h4 : rows.length / 4 = 0 := Nat.div_eq_of_lt h
    simp [earlyEfficiency, h4]
  · intro hpos hlen
    have hq : 1 ≤ rows.length / 4 := (Nat.le_div_iff_mul_le (by norm_num)).mpr
      (by omega)
    have htake : rows.take (rows.length / 4) ≠ [] := by
      intro hc
      have hl := congrArg List.length hc
      rw [List.length_take] at hl
      simp only [List.length_nil] at hl
      omega
    have hcpos : 0 < ((rows.take (rows.length / 4)).map
        fun r => r.seg.totalCost).sum := by
      apply List.sum_pos
      · intro x hx
        obtain ⟨r, hr, rfl⟩ := List.mem_map.mp hx
        exact hpos r (List.take_subset _ _ hr)
      · simpa using htake
    simp only [earlyEfficiency]
    rw [if_neg (ne_of_gt hcpos)]

/-- C8 witness: a three-row schedule yields the undefined metric and a
four-row schedule yields the ratio over its first row, with the hypotheses
discharged concretely. -/
theorem c8_early_efficiency_witness :
    earlyEfficiency (calculateScheduleRows [segA, segB, segC]) = none ∧
    earlyEfficiency (calculateScheduleRows [segA, segB, segC, segD])
      = some ((((calculateScheduleRows [segA, segB, segC, segD]).take
            ((calculateScheduleRows [segA, segB, segC, segD]).length / 4)).map
              (fun r => r.seg.distance)).sum
          / (((calculateScheduleRows [segA, segB, segC, segD]).take
            ((calculateScheduleRows [segA, segB, segC, segD]).length / 4)).map
              (fun r => r.seg.totalCost)).sum) :=
  ⟨(c8_early_efficiency _).1 (by decide),
   (c8_early_efficiency _).2 (by decide) (by decide)⟩

end FiberSeq
